import Mathlib

/-!
A verification development for the Claw16z trading agent
(`trading/monitor.js` and its swap adapter).

The monitor is shallowly embedded: JavaScript numbers are modelled as `ℚ`,
the in-memory `Map` of positions as an association list with JavaScript
`Map` semantics (`set` replaces in place or appends, `delete` filters,
insertion order preserved), and the side-effecting methods
(`enterPosition`, `exitPosition`, `savePositions`, `loadPositions`,
`logTrade`, the scan loop body) as explicit state-passing functions over a
`MonitorState`.  Network calls and swap execution are parameters: a raw
feed response is passed in as data, and an execution outcome is passed in
as an `Except` value (the `catch` branches of the source become the
`.error` cases).

Fields that JavaScript may leave `undefined`, or that arrive from the feed
and may be missing or unparseable, are modelled as `Option` values;
`parseFloat(x) || 0` becomes `Option.getD 0`, and JavaScript's
NaN-poisoned comparisons (`undefined < n` is `false`) become the `jsLt`
family of helpers.
-/

namespace Claw16z

/-- A prefix test on character lists: `startsWith n h` is true when `n`
is an initial segment of `h`.  Used to model `String.prototype.includes`. -/
def startsWith : List Char → List Char → Bool
  | [], _ => true
  | _ :: _, [] => false
  | a :: as, b :: bs => a == b && startsWith as bs

/-- Substring test on character lists, modelling JavaScript
`haystack.includes(needle)`. -/
def containsSub (needle : List Char) : List Char → Bool
  | [] => startsWith needle []
  | c :: rest => startsWith needle (c :: rest) || containsSub needle rest

/-- JavaScript `s.toLowerCase()` on a string, as a character list. -/
def lower (s : String) : List Char :=
  s.data.map Char.toLower

/-- JavaScript `<` where the left operand may be `undefined`/NaN:
`undefined < b` and `NaN < b` are `false`. -/
def jsLt : Option ℚ → ℚ → Bool
  | some a, b => a < b
  | none, _ => false

/-- JavaScript `x <= 0` where `x` may be `undefined`/NaN. -/
def jsLe0 : Option ℚ → Bool
  | some a => a ≤ 0
  | none => false

/-- JavaScript `Math.abs`, propagating NaN. -/
def jsAbs : Option ℚ → Option ℚ
  | some a => some |a|
  | none => none

/-- JavaScript `a > b` where `a` may be `undefined`/NaN. -/
def jsGtOpt : Option ℚ → ℚ → Bool
  | some a, b => b < a
  | none, _ => false

/-- JavaScript truthiness of a possibly absent string (`undefined` and
`""` are falsy). -/
def jsTruthy : Option String → Bool
  | some s => s ≠ ""
  | none => false

/-- The configuration object built in the `TradingMonitor` constructor
(the fields the core logic reads). -/
structure Config where
  positionSize : ℚ
  maxSlippage : ℚ
  minLiquidity : ℚ
  stopLoss : ℚ
  minVolume24h : ℚ
  minPriceChange : ℚ
  minMarketCap : ℚ
  maxPositions : ℕ
  blacklist : List String
  deriving Repr, DecidableEq

/-- A normalized token snapshot as produced by `getTrendingTokens`
(`name` and `pairAddress` come straight from the raw pair and may be
absent; the final feed filter guarantees the other fields). -/
structure Candidate where
  address : String
  symbol : String
  name : Option String
  price : ℚ
  priceChange24h : ℚ
  volume24h : ℚ
  liquidity : ℚ
  marketCap : ℚ
  pairAddress : Option String
  deriving Repr, DecidableEq

/-- An open position as recorded by `enterPosition` (`entryTime` is the
entry timestamp in milliseconds; the source stores it as an ISO string). -/
structure Position where
  token : String
  address : String
  entryPrice : ℚ
  entryTime : ℤ
  amount : ℚ
  usdcInvested : ℚ
  signature : String
  stopLoss : ℚ
  deriving Repr, DecidableEq

/-- The `this.positions` JavaScript `Map`, as an insertion-ordered
association list. -/
abbrev Store := List (String × Position)

/-- JavaScript `Map.prototype.has`. -/
def mapHas (m : Store) (k : String) : Bool :=
  m.any (fun kv => kv.1 == k)

/-- JavaScript `Map.prototype.get` (as an `Option`). -/
def mapGet (m : Store) (k : String) : Option Position :=
  (m.find? (fun kv => kv.1 == k)).map (fun kv => kv.2)

/-- JavaScript `Map.prototype.set`: replace in place when the key is
present, append otherwise. -/
def mapSet (m : Store) (k : String) (v : Position) : Store :=
  if mapHas m k then m.map (fun kv => if kv.1 == k then (k, v) else kv)
  else m ++ [(k, v)]

/-- JavaScript `Map.prototype.delete`. -/
def mapDelete (m : Store) (k : String) : Store :=
  m.filter (fun kv => kv.1 != k)

/-- JavaScript `Map.prototype.size`. -/
def mapSize (m : Store) : ℕ :=
  m.length

/-- Model of `isGoodOpportunity` (monitor.js 234–254): the entry filter, a chain of
early-return guards over a normalized candidate. -/
def isGoodOpportunity (cfg : Config) (positions : Store) (token : Candidate) : Bool :=
  if token.volume24h < cfg.minVolume24h then false
  else if |token.priceChange24h| < cfg.minPriceChange then false
  else if token.liquidity < cfg.minLiquidity then false
  else if token.marketCap < cfg.minMarketCap then false
  else if cfg.blacklist.any (fun word => containsSub word.data (lower token.symbol)) then false
  else if mapHas positions token.address then false
  else if token.priceChange24h ≤ 0 then false
  else true

/-- The default configuration from the constructor (no environment
overrides): thresholds, capacity and the lowercased blacklist. -/
def defaultConfig : Config where
  positionSize := 10
  maxSlippage := 1
  minLiquidity := 100000
  stopLoss := 10
  minVolume24h := 50000
  minPriceChange := 5
  minMarketCap := 100000
  maxPositions := 3
  blacklist := ["meme", "scam", "inu", "doge"]

/-- A raw token object as JavaScript sees it inside `isGoodOpportunity`
when fields may be `undefined` or non-numeric (`none`). -/
structure RawToken where
  address : Option String
  symbol : Option String
  volume24h : Option ℚ
  priceChange24h : Option ℚ
  liquidity : Option ℚ
  marketCap : Option ℚ
  deriving Repr, DecidableEq

/-- JavaScript `Map.prototype.has` applied to a possibly `undefined` key. -/
def mapHasOpt (m : Store) : Option String → Bool
  | some a => mapHas m a
  | none => false

/-- Model of `isGoodOpportunity` evaluated under JavaScript semantics on a token
whose fields may be missing: comparisons against `undefined`/NaN are
`false`, and `token.symbol.toLowerCase()` throws a `TypeError` when
`symbol` is absent (result `none`). -/
def isGoodOpportunityRaw (cfg : Config) (positions : Store) (t : RawToken) : Option Bool :=
  if jsLt t.volume24h cfg.minVolume24h then some false
  else if jsLt (jsAbs t.priceChange24h) cfg.minPriceChange then some false
  else if jsLt t.liquidity cfg.minLiquidity then some false
  else if jsLt t.marketCap cfg.minMarketCap then some false
  else
    match t.symbol with
    | none => none
    | some s =>
      if cfg.blacklist.any (fun word => containsSub word.data (lower s)) then some false
      else if mapHasOpt positions t.address then some false
      else if jsLe0 t.priceChange24h then some false
      else some true

/-- The reasons `checkPosition` can assign to `exitReason`. -/
inductive ExitReason
  | stopLoss
  | timeExit
  | profitTaking
  deriving Repr, DecidableEq

/-- The 4-hour `maxAge` constant of `checkPosition`, in milliseconds. -/
def maxAgeMs : ℤ := 4 * 60 * 60 * 1000

/-- The exit decision of `checkPosition` (monitor.js 349–375): three
sequential `if` statements each overwrite `shouldExit`/`exitReason`, so
the recorded reason is the last matching rule. -/
def exitDecision (position : Position) (currentPrice : ℚ) (now : ℤ) : Option ExitReason :=
  let pnl := (currentPrice - position.entryPrice) / position.entryPrice * 100
  let positionAge := now - position.entryTime
  let d1 : Option ExitReason :=
    if currentPrice ≤ position.stopLoss then some .stopLoss else none
  let d2 : Option ExitReason :=
    if positionAge > maxAgeMs ∧ pnl < 20 then some .timeExit else d1
  if pnl > 50 then some .profitTaking else d2

/-- The outcome of `checkPosition` for one position on one tick. -/
inductive CheckOutcome
  | skip
  | hold
  | exit (reason : ExitReason)
  deriving Repr, DecidableEq

/-- The current-price data `getTokenData` returns for an address. -/
structure TokenData where
  price : ℚ
  priceChange24h : ℚ
  volume24h : ℚ
  liquidity : ℚ
  deriving Repr, DecidableEq

/-- A raw DexScreener pair record; `Option` fields may be missing from
the response, and for numeric fields `none` also stands for an
unparseable value (`parseFloat` returning NaN). -/
structure RawPair where
  chainId : String
  pairAddress : Option String
  baseTokenAddress : Option String
  baseTokenSymbol : Option String
  baseTokenName : Option String
  priceUsd : Option ℚ
  priceChangeH24 : Option ℚ
  volumeH24 : Option ℚ
  liquidityUsd : Option ℚ
  fdv : Option ℚ
  deriving Repr, DecidableEq

/-- Model of `getTokenData` (monitor.js 431–451): pick the first `base`-chain pair
of the response; absent such a pair the lookup yields `none` (the source
returns `null`); otherwise numeric fields default to `0` via
`parseFloat(x) || 0`. -/
def getTokenData (pairs : List RawPair) : Option TokenData :=
  match pairs.find? (fun p => p.chainId == "base") with
  | none => none
  | some pair =>
    some { price := pair.priceUsd.getD 0
           priceChange24h := pair.priceChangeH24.getD 0
           volume24h := pair.volumeH24.getD 0
           liquidity := pair.liquidityUsd.getD 0 }

/-- Model of `checkPosition` (monitor.js 338–376): a missing current-price record
skips the position for the tick; otherwise the exit rules run on the
fetched price. -/
def checkPosition (position : Position) (tokenData : Option TokenData) (now : ℤ) :
    CheckOutcome :=
  match tokenData with
  | none => .skip
  | some data =>
    match exitDecision position data.price now with
    | none => .hold
    | some r => .exit r

/-- The result the execution adapter hands back to the monitor (the
fields `enterPosition`/`exitPosition` read). -/
structure SwapResult where
  signature : String
  outputAmount : ℚ
  deriving Repr, DecidableEq

/-- One element of the `positions.json` snapshot written by
`savePositions`: `{address, ...position}` (the spread puts the
position's own `address` field last, so it wins). -/
structure SavedRecord where
  address : String
  token : String
  entryPrice : ℚ
  entryTime : ℤ
  amount : ℚ
  usdcInvested : ℚ
  signature : String
  stopLoss : ℚ
  deriving Repr, DecidableEq

/-- One newline-delimited entry of `trades.log` as written by `logTrade`
(only `EXIT` events are produced by the monitor). -/
structure TradeRecord where
  timestamp : ℤ
  ttype : String
  token : String
  reason : ExitReason
  entryPrice : ℚ
  entryTime : ℤ
  exitTime : ℤ
  invested : ℚ
  finalValue : ℚ
  pnl : ℚ
  pnlPercent : ℚ
  signature : String
  deriving Repr, DecidableEq

/-- Model of `savePositions` (monitor.js 465–473): the full snapshot written on
every mutation, one record per store entry in insertion order. -/
def positionRecord (kv : String × Position) : SavedRecord where
  address := kv.2.address
  token := kv.2.token
  entryPrice := kv.2.entryPrice
  entryTime := kv.2.entryTime
  amount := kv.2.amount
  usdcInvested := kv.2.usdcInvested
  signature := kv.2.signature
  stopLoss := kv.2.stopLoss

/-- The array `savePositions` serializes to `positions.json`. -/
def savePositions (positions : Store) : List SavedRecord :=
  positions.map positionRecord

/-- The position reconstructed by `loadPositions` from one snapshot
record (the parsed JSON object itself, address field included). -/
def recordPosition (r : SavedRecord) : Position where
  token := r.token
  address := r.address
  entryPrice := r.entryPrice
  entryTime := r.entryTime
  amount := r.amount
  usdcInvested := r.usdcInvested
  signature := r.signature
  stopLoss := r.stopLoss

/-- Model of `loadPositions` (monitor.js 478–492): every snapshot record is `set`
into the store keyed by its `address` field, in file order. -/
def loadPositions (data : List SavedRecord) (positions : Store) : Store :=
  data.foldl (fun m r => mapSet m r.address (recordPosition r)) positions

/-- The mutable state the monitor methods touch: the position `Map`, the
`positions.json` mirror, and the `trades.log` contents. -/
structure MonitorState where
  positions : Store
  snapshot : List SavedRecord
  tradeLog : List TradeRecord
  deriving Repr, DecidableEq

/-- The position object `enterPosition` records (monitor.js 293–302). -/
def mkPosition (cfg : Config) (token : Candidate) (now : ℤ) (result : SwapResult) :
    Position where
  token := token.symbol
  address := token.address
  entryPrice := token.price
  entryTime := now
  amount := result.outputAmount
  usdcInvested := cfg.positionSize
  signature := result.signature
  stopLoss := token.price * (1 - cfg.stopLoss / 100)

/-- The simulated fill `enterPosition` constructs in `DRY_RUN` mode. -/
def dryRunResult (cfg : Config) (token : Candidate) : SwapResult where
  signature := "DRY_RUN"
  outputAmount := if 0 < token.price then cfg.positionSize / token.price else cfg.positionSize

/-- Model of `enterPosition` (monitor.js 259–316) as a state transition, with the
execution outcome passed in (`.error` is the thrown path caught at the
bottom: nothing after the failed `await` runs, so the state is returned
untouched). -/
def enterPosition (cfg : Config) (st : MonitorState) (token : Candidate) (now : ℤ)
    (execResult : Except String SwapResult) : MonitorState :=
  match execResult with
  | .error _ => st
  | .ok result =>
    let positions := mapSet st.positions token.address (mkPosition cfg token now result)
    { st with positions := positions, snapshot := savePositions positions }

/-- Model of `exitPosition` (monitor.js 381–426) as a state transition: on a
successful close execution the position is deleted, the snapshot
rewritten and an `EXIT` record appended; on a thrown execution the catch
leaves everything untouched. -/
def exitPosition (st : MonitorState) (address : String) (position : Position)
    (reason : ExitReason) (now : ℤ) (execResult : Except String SwapResult) :
    MonitorState :=
  match execResult with
  | .error _ => st
  | .ok result =>
    let finalValue := result.outputAmount
    let pnl := finalValue - position.usdcInvested
    let pnlPercent := pnl / position.usdcInvested * 100
    let positions := mapDelete st.positions address
    { positions := positions
      snapshot := savePositions positions
      tradeLog := st.tradeLog ++
        [{ timestamp := now, ttype := "EXIT", token := position.token, reason := reason
           entryPrice := position.entryPrice, entryTime := position.entryTime
           exitTime := now, invested := position.usdcInvested
           finalValue := finalValue, pnl := pnl, pnlPercent := pnlPercent
           signature := result.signature }] }

/-- One position's evaluation within `checkPositions`: skip or hold leave
the state alone, an exit outcome runs `exitPosition`. -/
def checkPositionStep (st : MonitorState) (address : String) (position : Position)
    (tokenData : Option TokenData) (now : ℤ)
    (execResult : Except String SwapResult) : MonitorState :=
  match checkPosition position tokenData now with
  | .skip => st
  | .hold => st
  | .exit reason => exitPosition st address position reason now execResult

/-- The entry loop of `scanMarkets` (monitor.js 126–133): walk the chosen
opportunities in feed order, breaking as soon as
`positions.size >= maxPositions`; returns the final state and the list of
candidates for which an open was attempted. -/
def enterLoop (cfg : Config) (now : ℤ) (exec : Candidate → Except String SwapResult) :
    MonitorState → List Candidate → MonitorState × List Candidate
  | st, [] => (st, [])
  | st, token :: rest =>
    if cfg.maxPositions ≤ mapSize st.positions then (st, [])
    else
      let next := enterLoop cfg now exec (enterPosition cfg st token now (exec token)) rest
      (next.1, token :: next.2)

/-- The trade-opening part of one `scanMarkets` tick (monitor.js
110–133): filter the feed against the current store, take the first
`min(3, length)` qualifiers, and run the entry loop. -/
def scanStep (cfg : Config) (st : MonitorState) (tokens : List Candidate) (now : ℤ)
    (exec : Candidate → Except String SwapResult) : MonitorState × List Candidate :=
  let opportunities := tokens.filter (fun t => isGoodOpportunity cfg st.positions t)
  let topOpportunities := opportunities.take (min 3 opportunities.length)
  enterLoop cfg now exec st topOpportunities

/-- The duplicate-removal pass of `getTrendingTokens` (monitor.js
187–194): keep a pair when its `pairAddress` has not been seen yet
(`undefined` is itself a key of the `Set`). -/
def dedupBy (seen : List (Option String)) : List RawPair → List RawPair
  | [] => []
  | p :: rest =>
    if p.pairAddress ∈ seen then dedupBy seen rest
    else p :: dedupBy (p.pairAddress :: seen) rest

/-- The `.map(...)` plus final `.filter(...)` of `getTrendingTokens`
(monitor.js 207–223), fused: normalize one raw pair, dropping it when
`price > 0 && volume24h > 0 && symbol && address` fails. -/
def normalizeCandidate (p : RawPair) : Option Candidate :=
  let price := p.priceUsd.getD 0
  let volume := p.volumeH24.getD 0
  if 0 < price ∧ 0 < volume ∧ jsTruthy p.baseTokenSymbol ∧ jsTruthy p.baseTokenAddress then
    some { address := p.baseTokenAddress.getD "", symbol := p.baseTokenSymbol.getD ""
           name := p.baseTokenName, price := price
           priceChange24h := p.priceChangeH24.getD 0, volume24h := volume
           liquidity := p.liquidityUsd.getD 0, marketCap := p.fdv.getD 0
           pairAddress := p.pairAddress }
  else none

/-- Model of `getTrendingTokens` (monitor.js 143–229) with the network layer as
data: `trending` is the trending response's pair array (empty when the
endpoint failed) and `fallbackResponses` the pair arrays of the popular
token lookups that answered.  The fallback branch (with its volume
pre-filter, concatenation and deduplication) runs only when the trending
result was empty or contained no base pair; every path ends in the base
chain filter and the normalize-and-drop pass. -/
def getTrendingTokens (cfg : Config) (trending : List RawPair)
    (fallbackResponses : List (List RawPair)) : List Candidate :=
  let pairs :=
    if trending.isEmpty || !(trending.any (fun p => p.chainId == "base")) then
      dedupBy []
        (trending ++
          (fallbackResponses.map (fun resp =>
            resp.filter (fun p =>
              p.chainId == "base" && jsGtOpt p.volumeH24 cfg.minVolume24h))).flatten)
    else trending
  (pairs.filter (fun p => p.chainId == "base")).filterMap normalizeCandidate

/-- The exit rules written as a first-match chain in the priority order
(c) profit taking, (b) time exit, (a) stop loss — i.e. the rules of the
spec taken in *reverse*, which is what three overwriting `if` statements
amount to. -/
def exitDecisionLastMatch (position : Position) (currentPrice : ℚ) (now : ℤ) :
    Option ExitReason :=
  let pnl := (currentPrice - position.entryPrice) / position.entryPrice * 100
  let positionAge := now - position.entryTime
  if pnl > 50 then some .profitTaking
  else if positionAge > maxAgeMs ∧ pnl < 20 then some .timeExit
  else if currentPrice ≤ position.stopLoss then some .stopLoss
  else none

/-! Concrete fixtures used by witnesses and counterexamples. -/

/-- The scenario candidate of the spec's §8 tests. -/
def fooCandidate : Candidate where
  address := "0xA"
  symbol := "FOO"
  name := some "Foo"
  price := 1
  priceChange24h := 12
  volume24h := 80000
  liquidity := 150000
  marketCap := 200000
  pairAddress := some "0xPOOL"

/-- A position as `enterPosition` would record for `fooCandidate` with
`entryPrice = 100` and the default 10% stop loss. -/
def fooPosition : Position where
  token := "FOO"
  address := "0xA"
  entryPrice := 100
  entryTime := 0
  amount := 10
  usdcInvested := 10
  signature := "DRY_RUN"
  stopLoss := 90

/-- An empty monitor state. -/
def emptyState : MonitorState where
  positions := []
  snapshot := []
  tradeLog := []

/-- A raw token whose `volume24h` field is missing, all other entry
criteria comfortably satisfied. -/
def missingVolumeToken : RawToken where
  address := some "0xA"
  symbol := some "ABC"
  volume24h := none
  priceChange24h := some 10
  liquidity := some 200000
  marketCap := some 200000

/-- A raw token whose `symbol` field is missing, numeric thresholds
satisfied so evaluation reaches `symbol.toLowerCase()`. -/
def missingSymbolToken : RawToken where
  address := some "0xB"
  symbol := none
  volume24h := some 80000
  priceChange24h := some 10
  liquidity := some 200000
  marketCap := some 200000

/-- A complete base-chain raw pair (pool `0xPOOL`) that normalizes to a
full candidate. -/
def dupPair : RawPair where
  chainId := "base"
  pairAddress := some "0xPOOL"
  baseTokenAddress := some "0xA"
  baseTokenSymbol := some "FOO"
  baseTokenName := some "Foo"
  priceUsd := some 1
  priceChangeH24 := some 12
  volumeH24 := some 80000
  liquidityUsd := some 150000
  fdv := some 200000

/-- A base-chain raw pair whose `priceUsd` is unparseable. -/
def badPricePair : RawPair where
  chainId := "base"
  pairAddress := some "0xPOOL"
  baseTokenAddress := some "0xA"
  baseTokenSymbol := some "FOO"
  baseTokenName := some "Foo"
  priceUsd := none
  priceChangeH24 := some 1
  volumeH24 := some 80000
  liquidityUsd := some 150000
  fdv := some 200000

/-! ## Theorems -/

/-- C2. `isGoodOpportunity` accepts a candidate iff all seven
conditions hold: the four `≥` threshold comparisons (at-threshold
accepted), no blacklist substring in the lowercased symbol, no open
position for the address, and strictly positive 24h price change. -/
theorem isGoodOpportunity_iff (cfg : Config) (positions : Store) (token : Candidate) :
    isGoodOpportunity cfg positions token = true ↔
      (cfg.minVolume24h ≤ token.volume24h ∧
       cfg.minPriceChange ≤ |token.priceChange24h| ∧
       cfg.minLiquidity ≤ token.liquidity ∧
       cfg.minMarketCap ≤ token.marketCap ∧
       (∀ word ∈ cfg.blacklist, containsSub word.data (lower token.symbol) = false) ∧
       mapHas positions token.address = false ∧
       0 < token.priceChange24h) := by
  unfold isGoodOpportunity
  split_ifs with h1 h2 h3 h4 h5 h6 h7
  · simp only [false_iff]
    rintro ⟨hv, -⟩
    exact absurd hv (not_le.mpr h1)
  · simp only [false_iff]
    rintro ⟨-, hv, -⟩
    exact absurd hv (not_le.mpr h2)
  · simp only [false_iff]
    rintro ⟨-, -, hv, -⟩
    exact absurd hv (not_le.mpr h3)
  · simp only [false_iff]
    rintro ⟨-, -, -, hv, -⟩
    exact absurd hv (not_le.mpr h4)
  · simp only [false_iff]
    rintro ⟨-, -, -, -, hb, -⟩
    rw [List.any_eq_true] at h5
    obtain ⟨w, hw, hsub⟩ := h5
    exact absurd (hb w hw) (by simp [hsub])
  · simp only [false_iff]
    rintro ⟨-, -, -, -, -, hp, -⟩
    exact absurd hp (by simp [h6])
  · simp only [false_iff]
    rintro ⟨-, -, -, -, -, -, hm⟩
    exact absurd hm (not_lt.mpr h7)
  · simp only [true_iff]
    refine ⟨not_lt.mp h1, not_lt.mp h2, not_lt.mp h3, not_lt.mp h4, ?_, ?_, not_le.mp h7⟩
    · intro w hw
      rw [Bool.not_eq_true, List.any_eq_false] at h5
      simpa using h5 w hw
    · simpa using h6

/-- C5 counterexample. A candidate with a missing `volume24h` is
*accepted* (the JavaScript comparison against `undefined` is `false`, so
the guard passes), not rejected; and a candidate with a missing `symbol`
makes the filter throw instead of returning a boolean. -/
theorem isGoodOpportunityRaw_cex :
    isGoodOpportunityRaw defaultConfig [] missingVolumeToken = some true ∧
    isGoodOpportunityRaw defaultConfig [] missingSymbolToken = none := by
  decide

/-- C5 amended. `isGoodOpportunity` is deterministic and returns a
boolean without throwing whenever `symbol` is present (a missing symbol
throws in `symbol.toLowerCase()`); a missing or non-numeric `volume24h`
makes the volume guard evaluate exactly as an at-threshold passing value
does — the candidate is never rejected on that ground. -/
theorem isGoodOpportunityRaw_total_when_symbol_present (cfg : Config) (positions : Store)
    (t : RawToken) (s : String) (h : t.symbol = some s) :
    (isGoodOpportunityRaw cfg positions t).isSome = true ∧
    (t.volume24h = none →
      isGoodOpportunityRaw cfg positions t =
        isGoodOpportunityRaw cfg positions { t with volume24h := some cfg.minVolume24h }) := by
  constructor
  · obtain ⟨a, sym, v, pc, liq, mc⟩ := t
    dsimp only at h
    subst h
    unfold isGoodOpportunityRaw
    dsimp only
    split_ifs <;> rfl
  · intro hv
    cases t
    simp_all [isGoodOpportunityRaw, jsLt, lt_irrefl]

/-- Witness for the amended C5 theorem at a concrete input. -/
theorem isGoodOpportunityRaw_total_witness :
    (isGoodOpportunityRaw defaultConfig [] missingVolumeToken).isSome = true ∧
    (missingVolumeToken.volume24h = none →
      isGoodOpportunityRaw defaultConfig [] missingVolumeToken =
        isGoodOpportunityRaw defaultConfig []
          { missingVolumeToken with volume24h := some defaultConfig.minVolume24h }) :=
  isGoodOpportunityRaw_total_when_symbol_present defaultConfig [] missingVolumeToken "ABC" rfl

/-- C1 counterexample. At entry price 100, stop loss 90, current
price 80 and age 4h10m, both the stop-loss condition and the time-exit
condition hold, yet the recorded reason is "time exit", not "stop loss":
the later `if` overwrote `exitReason`. -/
theorem exitDecision_priority_cex :
    (80 : ℚ) ≤ fooPosition.stopLoss ∧
    ((15000000 : ℤ) - fooPosition.entryTime > maxAgeMs ∧
      ((80 : ℚ) - fooPosition.entryPrice) / fooPosition.entryPrice * 100 < 20) ∧
    exitDecision fooPosition 80 15000000 = some ExitReason.timeExit := by
  refine ⟨by norm_num [fooPosition], ⟨by norm_num [fooPosition, maxAgeMs], ?_⟩, ?_⟩
  · norm_num [fooPosition]
  · norm_num [exitDecision, fooPosition, maxAgeMs]

/-- C1 amended. The exit decision is the *last* matching rule of
the order (a) stop loss, (b) time exit, (c) profit taking — equivalently
the first matching rule of the reversed order — so whenever the stop-loss
and time-exit conditions both hold, the close is recorded with reason
"time exit"; a position with `pnlPct > 50` still exits with reason
"profit taking" regardless of age. -/
theorem exitDecision_eq_lastMatch (position : Position) (currentPrice : ℚ) (now : ℤ) :
    exitDecision position currentPrice now =
      exitDecisionLastMatch position currentPrice now ∧
    ((now - position.entryTime > maxAgeMs ∧
        (currentPrice - position.entryPrice) / position.entryPrice * 100 < 20) →
      exitDecision position currentPrice now = some ExitReason.timeExit) := by
  constructor
  · rfl
  · intro htime
    unfold exitDecision
    rw [if_neg (by linarith [htime.2]), if_pos htime]

/-- Witness for the amended C1 theorem: the stale losing position exits
with reason "time exit". -/
theorem exitDecision_eq_lastMatch_witness :
    exitDecision fooPosition 80 15000000 =
      exitDecisionLastMatch fooPosition 80 15000000 ∧
    (((15000000 : ℤ) - fooPosition.entryTime > maxAgeMs ∧
        ((80 : ℚ) - fooPosition.entryPrice) / fooPosition.entryPrice * 100 < 20) →
      exitDecision fooPosition 80 15000000 = some ExitReason.timeExit) :=
  exitDecision_eq_lastMatch fooPosition 80 15000000

/-! Store lemmas shared by several developments below. -/

/-- JavaScript `Map.set` followed by `Map.get` at the same key yields the new value. -/
theorem mapGet_mapSet_self (m : Store) (k : String) (v : Position) :
    mapGet (mapSet m k v) k = some v := by
  unfold mapSet
  split_ifs with h
  · unfold mapHas at h
    rw [List.any_eq_true] at h
    obtain ⟨kv, hmem, hk⟩ := h
    unfold mapGet
    induction m with
    | nil => simp at hmem
    | cons hd tl ih =>
      by_cases hhd : (hd.1 == k) = true
      · simp only [List.map_cons, if_pos hhd]
        rw [@List.find?_cons_of_pos _ (fun kv => kv.1 == k) (k, v)
            (List.map (fun kv => if kv.1 == k then (k, v) else kv) tl) (by simp)]
        rfl
      · rcases List.mem_cons.mp hmem with rfl | hmem'
        · exact absurd hk hhd
        · simp only [List.map_cons, if_neg hhd]
          rw [@List.find?_cons_of_neg _ (fun kv => kv.1 == k) hd
              (List.map (fun kv => if kv.1 == k then (k, v) else kv) tl) hhd]
          exact ih hmem'
  · unfold mapGet
    have hnone : m.find? (fun kv => kv.1 == k) = none := by
      rw [List.find?_eq_none]
      intro kv hkv
      unfold mapHas at h
      rw [Bool.not_eq_true, List.any_eq_false] at h
      simpa using h kv hkv
    rw [List.find?_append, hnone]
    simp

/-- JavaScript `Map.set` grows the store by at most one entry. -/
theorem mapSize_mapSet_le (m : Store) (k : String) (v : Position) :
    mapSize (mapSet m k v) ≤ mapSize m + 1 := by
  unfold mapSize mapSet
  split_ifs <;> simp

/-- A key surviving `Map.delete` keeps its original binding. -/
theorem mapGet_mapDelete (m : Store) (k a : String) (p : Position)
    (h : mapGet (mapDelete m k) a = some p) : mapGet m a = some p := by
  unfold mapGet mapDelete at *
  induction m with
  | nil => simp at h
  | cons hd tl ih =>
    rw [List.filter_cons] at h
    by_cases hk : (hd.1 != k) = true
    · rw [if_pos hk] at h
      by_cases ha : (hd.1 == a) = true
      · rw [@List.find?_cons_of_pos _ (fun kv => kv.1 == a) hd
            (List.filter (fun kv => kv.1 != k) tl) ha] at h
        rw [@List.find?_cons_of_pos _ (fun kv => kv.1 == a) hd tl ha]
        exact h
      · rw [@List.find?_cons_of_neg _ (fun kv => kv.1 == a) hd
            (List.filter (fun kv => kv.1 != k) tl) ha] at h
        rw [@List.find?_cons_of_neg _ (fun kv => kv.1 == a) hd tl ha]
        exact ih h
    · rw [if_neg hk] at h
      have hdk : hd.1 = k := by
        rw [Bool.not_eq_true] at hk
        simpa using hk
      have ha : ¬((hd.1 == a) = true) := by
        obtain ⟨q, hq, -⟩ := Option.map_eq_some'.mp h
        have hqa : q.1 = a := by simpa using List.find?_some hq
        have hqk : q.1 ≠ k := by
          have := (List.mem_filter.mp (List.mem_of_find?_eq_some hq)).2
          simpa using this
        simp only [beq_iff_eq, hdk]
        exact fun hka => hqk (by rw [hqa, ← hka])
      rw [@List.find?_cons_of_neg _ (fun kv => kv.1 == a) hd tl ha]
      exact ih h

/-- The size of the positions map after `enterPosition` grows by at most
one. -/
theorem mapSize_enterPosition_le (cfg : Config) (st : MonitorState) (token : Candidate)
    (now : ℤ) (r : Except String SwapResult) :
    mapSize (enterPosition cfg st token now r).positions ≤ mapSize st.positions + 1 := by
  cases r with
  | error e => exact Nat.le_succ_of_le le_rfl
  | ok result => exact mapSize_mapSet_le _ _ _

/-- C3. Open and close transitions are atomic against the store: a
failed execution inside `enterPosition` inserts nothing (the whole
`MonitorState`, store included, is unchanged), and a failed execution
inside `exitPosition` leaves the position in the store untouched. -/
theorem transitions_unchanged_on_exec_failure (cfg : Config) (st : MonitorState)
    (token : Candidate) (now : ℤ) (e : String) (address : String) (position : Position)
    (reason : ExitReason) :
    enterPosition cfg st token now (.error e) = st ∧
    exitPosition st address position reason now (.error e) = st :=
  ⟨rfl, rfl⟩

/-- C4 counterexample. A fully successful open — the position is
inserted into the store — appends nothing to the trade log: no ENTRY
record exists anywhere in the code path. -/
theorem enterPosition_no_entry_record_cex :
    (enterPosition defaultConfig emptyState fooCandidate 0
        (.ok { signature := "SIG", outputAmount := 10 })).tradeLog = [] ∧
    mapGet (enterPosition defaultConfig emptyState fooCandidate 0
        (.ok { signature := "SIG", outputAmount := 10 })).positions "0xA" =
      some (mkPosition defaultConfig fooCandidate 0
        { signature := "SIG", outputAmount := 10 }) := by
  exact ⟨rfl, rfl⟩

/-- C4 amended. A successful open inserts the constructed position
into the store and rewrites the snapshot mirror, but appends *no* record
to the monitor's trade log: the trade log only ever receives EXIT
records (from `exitPosition`). -/
theorem enterPosition_success_effects (cfg : Config) (st : MonitorState)
    (token : Candidate) (now : ℤ) (result : SwapResult) :
    (enterPosition cfg st token now (.ok result)).tradeLog = st.tradeLog ∧
    mapGet (enterPosition cfg st token now (.ok result)).positions token.address =
      some (mkPosition cfg token now result) ∧
    (enterPosition cfg st token now (.ok result)).snapshot =
      savePositions (enterPosition cfg st token now (.ok result)).positions := by
  refine ⟨rfl, ?_, rfl⟩
  exact mapGet_mapSet_self _ _ _

/-- When the current price is at or below the stop-loss price the exit
decision always fires (whatever reason ends up recorded). -/
theorem exitDecision_isSome_of_le_stopLoss (position : Position) (currentPrice : ℚ)
    (now : ℤ) (h : currentPrice ≤ position.stopLoss) :
    (exitDecision position currentPrice now).isSome = true := by
  simp only [exitDecision]
  split_ifs with h1 h2 <;> rfl

/-- C7. The stop-loss price is `entryPrice × (1 − stopLossPct/100)`,
fixed at entry; an evaluation at exactly the stop-loss price always
triggers an exit (the comparison is `≤`, inclusive), and — when the
time-exit and profit rules do not also fire — with reason "stop loss";
and evaluation never rewrites a stored position: any position present
after `checkPosition`'s step was present before it, all fields equal
(stop loss included). -/
theorem stopLoss_fixed_and_inclusive (cfg : Config) (token : Candidate) (tEntry : ℤ)
    (result : SwapResult) (position : Position) (now : ℤ) (st : MonitorState)
    (address : String) (pos2 : Position) (tokenData : Option TokenData)
    (execResult : Except String SwapResult) :
    (mkPosition cfg token tEntry result).stopLoss =
      token.price * (1 - cfg.stopLoss / 100) ∧
    (exitDecision position position.stopLoss now).isSome = true ∧
    (now - position.entryTime ≤ maxAgeMs →
      (position.stopLoss - position.entryPrice) / position.entryPrice * 100 ≤ 50 →
      exitDecision position position.stopLoss now = some ExitReason.stopLoss) ∧
    (∀ a p, mapGet (checkPositionStep st address pos2 tokenData now execResult).positions
        a = some p → mapGet st.positions a = some p) := by
  refine ⟨rfl, exitDecision_isSome_of_le_stopLoss position position.stopLoss now le_rfl,
    ?_, ?_⟩
  · intro hage hpnl
    unfold exitDecision
    rw [if_neg (by exact not_lt.mpr hpnl), if_neg (by
      rintro ⟨hgt, -⟩
      exact absurd hage (not_le.mpr hgt)), if_pos le_rfl]
  · intro a p hp
    unfold checkPositionStep at hp
    rcases hout : checkPosition pos2 tokenData now with _ | _ | reason <;>
      rw [hout] at hp
    · exact hp ▸ rfl
    · exact hp ▸ rfl
    · unfold exitPosition at hp
      cases execResult with
      | error e => exact hp ▸ rfl
      | ok r => exact mapGet_mapDelete _ _ _ _ hp

/-- Witness for C7 at concrete inputs: the `fooCandidate` entry gets
stop loss `0.9`, and a fresh position at exactly its stop-loss price
exits with reason "stop loss"; a skip tick leaves the stored position
intact. -/
theorem stopLoss_fixed_and_inclusive_witness :
    exitDecision fooPosition fooPosition.stopLoss 0 = some ExitReason.stopLoss ∧
    mapGet ([("0xA", fooPosition)] : Store) "0xA" = some fooPosition := by
  have h := stopLoss_fixed_and_inclusive defaultConfig fooCandidate 0
    { signature := "SIG", outputAmount := 10 } fooPosition 0
    { positions := [("0xA", fooPosition)], snapshot := [], tradeLog := [] }
    "0xA" fooPosition none (.error "boom")
  refine ⟨h.2.2.1 (by norm_num [fooPosition, maxAgeMs]) (by norm_num [fooPosition]), ?_⟩
  exact h.2.2.2 "0xA" fooPosition rfl

/-- C10. When the price lookup finds a base-chain pair whose
`priceUsd` fails to parse, `getTokenData` returns a record with price 0
(`parseFloat(...) || 0`); for a position entered at a positive price with
`stopLossPct < 100` that zero price is `≤` the (positive) stop-loss
price, so the evaluation attempts a close instead of skipping — a skip
happens only when the record is absent altogether. -/
theorem zero_price_triggers_stop (cfg : Config) (token : Candidate) (tEntry : ℤ)
    (result : SwapResult) (pairs : List RawPair) (pair : RawPair) (now : ℤ)
    (hfind : pairs.find? (fun p => p.chainId == "base") = some pair)
    (hprice : pair.priceUsd = none)
    (hentry : 0 < token.price) (hsl : cfg.stopLoss < 100) :
    ∃ d, getTokenData pairs = some d ∧ d.price = 0 ∧
      d.price ≤ (mkPosition cfg token tEntry result).stopLoss ∧
      (∃ r, checkPosition (mkPosition cfg token tEntry result)
        (getTokenData pairs) now = CheckOutcome.exit r) ∧
      (∀ td, checkPosition (mkPosition cfg token tEntry result) td now =
          CheckOutcome.skip ↔ td = none) := by
  have hdata : getTokenData pairs =
      some { price := 0, priceChange24h := pair.priceChangeH24.getD 0
             volume24h := pair.volumeH24.getD 0
             liquidity := pair.liquidityUsd.getD 0 } := by
    unfold getTokenData
    rw [hfind]
    simp [hprice]
  have hpos : (0 : ℚ) < (mkPosition cfg token tEntry result).stopLoss := by
    unfold mkPosition
    have h100 : (0 : ℚ) < 1 - cfg.stopLoss / 100 := by
      have : cfg.stopLoss / 100 < 1 := by
        rw [div_lt_one (by norm_num)]
        exact hsl
      linarith
    exact mul_pos hentry h100
  refine ⟨_, hdata, rfl, le_of_lt hpos, ?_, ?_⟩
  · rw [hdata]
    have hsome := exitDecision_isSome_of_le_stopLoss (mkPosition cfg token tEntry result)
      0 now (le_of_lt hpos)
    obtain ⟨r, hr⟩ := Option.isSome_iff_exists.mp hsome
    refine ⟨r, ?_⟩
    simp only [checkPosition]
    rw [hr]
  · intro td
    cases td with
    | none => simp [checkPosition]
    | some d =>
      simp only [checkPosition]
      constructor
      · intro hcontr
        rcases hd : exitDecision (mkPosition cfg token tEntry result) d.price now with
          _ | r <;> rw [hd] at hcontr <;> exact absurd hcontr (by simp)
      · intro hcontr
        exact absurd hcontr (by simp)

/-- Witness for C10 at a concrete feed response: a base pair with an
unparseable price yields price 0 and an exit attempt. -/
theorem zero_price_triggers_stop_witness :
    ∃ d, getTokenData [badPricePair] = some d ∧ d.price = 0 ∧
      d.price ≤ (mkPosition defaultConfig fooCandidate 0
        { signature := "SIG", outputAmount := 10 }).stopLoss ∧
      (∃ r, checkPosition (mkPosition defaultConfig fooCandidate 0
        { signature := "SIG", outputAmount := 10 })
        (getTokenData [badPricePair]) 0 = CheckOutcome.exit r) ∧
      (∀ td, checkPosition (mkPosition defaultConfig fooCandidate 0
          { signature := "SIG", outputAmount := 10 }) td 0 =
          CheckOutcome.skip ↔ td = none) :=
  zero_price_triggers_stop defaultConfig fooCandidate 0
    { signature := "SIG", outputAmount := 10 } [badPricePair] badPricePair 0
    rfl rfl (by norm_num [fooCandidate]) (by norm_num [defaultConfig])

/-- The entry loop never grows the store past
`max (initial size) maxPositions`. -/
theorem enterLoop_size_le (cfg : Config) (now : ℤ)
    (exec : Candidate → Except String SwapResult) :
    ∀ (tokens : List Candidate) (st : MonitorState),
      mapSize (enterLoop cfg now exec st tokens).1.positions ≤
        max (mapSize st.positions) cfg.maxPositions := by
  intro tokens
  induction tokens with
  | nil => intro st; exact le_max_left _ _
  | cons token rest ih =>
    intro st
    unfold enterLoop
    split_ifs with hfull
    · exact le_max_left _ _
    · have hlt : mapSize st.positions < cfg.maxPositions := not_le.mp hfull
      have h1 := mapSize_enterPosition_le cfg st token now (exec token)
      have h2 := ih (enterPosition cfg st token now (exec token))
      simp only []
      omega

/-- The entry loop attempts a prefix of its candidate list (feed order),
and attempts nothing at all when the store is already full. -/
theorem enterLoop_attempts (cfg : Config) (now : ℤ)
    (exec : Candidate → Except String SwapResult) :
    ∀ (tokens : List Candidate) (st : MonitorState),
      (∃ n, (enterLoop cfg now exec st tokens).2 = tokens.take n) ∧
      (cfg.maxPositions ≤ mapSize st.positions →
        (enterLoop cfg now exec st tokens).2 = []) := by
  intro tokens
  induction tokens with
  | nil => exact fun st => ⟨⟨0, rfl⟩, fun _ => rfl⟩
  | cons token rest ih =>
    intro st
    unfold enterLoop
    split_ifs with hfull
    · exact ⟨⟨0, rfl⟩, fun _ => rfl⟩
    · refine ⟨?_, fun h => absurd h hfull⟩
      obtain ⟨⟨n, hn⟩, -⟩ := ih (enterPosition cfg st token now (exec token))
      exact ⟨n + 1, by simp [hn]⟩

/-- C6. Capacity is enforced at open-time: starting a scan tick with
at most `maxPositions` open positions, the tick ends with at most
`maxPositions` open positions; when the store is already full no open is
attempted at all, even for qualifying candidates; and at most 3 opens
are attempted per tick, taken as a prefix (feed order) of the filtered
candidate list. -/
theorem scanStep_capacity (cfg : Config) (st : MonitorState) (tokens : List Candidate)
    (now : ℤ) (exec : Candidate → Except String SwapResult)
    (hinit : mapSize st.positions ≤ cfg.maxPositions) :
    mapSize (scanStep cfg st tokens now exec).1.positions ≤ cfg.maxPositions ∧
    (scanStep cfg st tokens now exec).2.length ≤ 3 ∧
    (mapSize st.positions = cfg.maxPositions → (scanStep cfg st tokens now exec).2 = []) ∧
    (∃ n, (scanStep cfg st tokens now exec).2 =
      (tokens.filter (fun t => isGoodOpportunity cfg st.positions t)).take n) := by
  simp only [scanStep]
  refine ⟨?_, ?_, ?_, ?_⟩
  · have h := enterLoop_size_le cfg now exec
      ((tokens.filter (fun t => isGoodOpportunity cfg st.positions t)).take
        (min 3 (tokens.filter (fun t => isGoodOpportunity cfg st.positions t)).length)) st
    omega
  · obtain ⟨⟨n, hn⟩, -⟩ := enterLoop_attempts cfg now exec
      ((tokens.filter (fun t => isGoodOpportunity cfg st.positions t)).take
        (min 3 (tokens.filter (fun t => isGoodOpportunity cfg st.positions t)).length)) st
    rw [hn]
    simp only [List.length_take]
    omega
  · intro hfull
    obtain ⟨-, hempty⟩ := enterLoop_attempts cfg now exec
      ((tokens.filter (fun t => isGoodOpportunity cfg st.positions t)).take
        (min 3 (tokens.filter (fun t => isGoodOpportunity cfg st.positions t)).length)) st
    exact hempty (le_of_eq hfull.symm)
  · obtain ⟨⟨n, hn⟩, -⟩ := enterLoop_attempts cfg now exec
      ((tokens.filter (fun t => isGoodOpportunity cfg st.positions t)).take
        (min 3 (tokens.filter (fun t => isGoodOpportunity cfg st.positions t)).length)) st
    exact ⟨min n (min 3 (tokens.filter
      (fun t => isGoodOpportunity cfg st.positions t)).length), by
        rw [hn, List.take_take]⟩

/-- Witness for C6: one qualifying candidate against an empty store with
the default capacity of 3. -/
theorem scanStep_capacity_witness :
    mapSize (scanStep defaultConfig emptyState [fooCandidate] 0
      (fun _ => Except.error "boom")).1.positions ≤ defaultConfig.maxPositions ∧
    (scanStep defaultConfig emptyState [fooCandidate] 0
      (fun _ => Except.error "boom")).2.length ≤ 3 ∧
    (mapSize emptyState.positions = defaultConfig.maxPositions →
      (scanStep defaultConfig emptyState [fooCandidate] 0
        (fun _ => Except.error "boom")).2 = []) ∧
    (∃ n, (scanStep defaultConfig emptyState [fooCandidate] 0
        (fun _ => Except.error "boom")).2 =
      ([fooCandidate].filter
        (fun t => isGoodOpportunity defaultConfig emptyState.positions t)).take n) :=
  scanStep_capacity defaultConfig emptyState [fooCandidate] 0
    (fun _ => Except.error "boom") (by decide)

/-- Reloading a snapshot whose keys are fresh extends the store by
exactly the snapshotted entries, in order. -/
theorem loadPositions_fresh (s : Store) :
    ∀ (acc : Store),
      (∀ kv ∈ s, kv.2.address = kv.1) →
      ((s.map (fun kv => kv.1)).Nodup) →
      (∀ kv ∈ s, mapHas acc kv.1 = false) →
      loadPositions (savePositions s) acc = acc ++ s := by
  induction s with
  | nil => intro acc _ _ _; simp [loadPositions, savePositions]
  | cons kv rest ih =>
    intro acc hwf hnd hdisj
    have hkey : (positionRecord kv).address = kv.1 :=
      hwf kv (List.mem_cons_self kv rest)
    have hval : recordPosition (positionRecord kv) = kv.2 := rfl
    have hstep : mapSet acc (positionRecord kv).address (recordPosition (positionRecord kv)) =
        acc ++ [kv] := by
      rw [hkey, hval]
      unfold mapSet
      rw [if_neg (by simp [hdisj kv (List.mem_cons_self kv rest)])]
    rw [List.map_cons, List.nodup_cons] at hnd
    obtain ⟨hhead, htail⟩ := hnd
    have hrest := ih (acc ++ [kv])
      (fun q hq => hwf q (List.mem_cons_of_mem kv hq))
      htail
      (by
        intro q hq
        have hne : kv.1 ≠ q.1 := by
          intro heq
          exact hhead (heq ▸ List.mem_map_of_mem (fun kv => kv.1) hq)
        have hacc := hdisj q (List.mem_cons_of_mem kv hq)
        unfold mapHas at hacc ⊢
        rw [List.any_append, hacc]
        simp [hne])
    calc loadPositions (savePositions (kv :: rest)) acc
        = loadPositions (savePositions rest) (acc ++ [kv]) := by
          unfold savePositions loadPositions at *
          simp only [List.map_cons, List.foldl_cons, hstep]
      _ = (acc ++ [kv]) ++ rest := hrest
      _ = acc ++ kv :: rest := by simp

/-- C8. Persistence round-trip: for any reachable store (keys are the
positions' addresses, no duplicate keys), writing the snapshot via
`savePositions` and reloading it into an empty store via `loadPositions`
reconstructs the store exactly — same addresses in the same order, each
bound to a position with identical fields. -/
theorem save_load_roundtrip (s : Store)
    (hwf : ∀ kv ∈ s, kv.2.address = kv.1)
    (hnd : (s.map (fun kv => kv.1)).Nodup) :
    loadPositions (savePositions s) [] = s := by
  have h := loadPositions_fresh s [] hwf hnd (fun kv _ => rfl)
  simpa using h

/-- Witness for C8: a one-position store survives the round-trip. -/
theorem save_load_roundtrip_witness :
    (∀ kv ∈ ([("0xA", fooPosition)] : Store), kv.2.address = kv.1) ∧
    loadPositions (savePositions [("0xA", fooPosition)]) [] = [("0xA", fooPosition)] :=
  ⟨by decide, save_load_roundtrip [("0xA", fooPosition)] (by decide) (by decide)⟩

/-- A truthy optional string defaults (`getD ""`) to a nonempty string. -/
theorem jsTruthy_getD (o : Option String) (h : jsTruthy o = true) : o.getD "" ≠ "" := by
  cases o with
  | none => simp [jsTruthy] at h
  | some s => simpa [jsTruthy] using h

/-- What a normalized candidate is guaranteed to satisfy, and that its
pool identifier is the raw pair's. -/
theorem normalizeCandidate_some (p : RawPair) (c : Candidate)
    (h : normalizeCandidate p = some c) :
    0 < c.price ∧ 0 < c.volume24h ∧ c.symbol ≠ "" ∧ c.address ≠ "" ∧
      c.pairAddress = p.pairAddress := by
  simp only [normalizeCandidate] at h
  split_ifs at h with hc
  obtain ⟨hp, hv, hs, ha⟩ := hc
  cases h
  exact ⟨hp, hv, jsTruthy_getD _ hs, jsTruthy_getD _ ha, rfl⟩

/-- The pool identifiers of the normalized output form a sublist of the
pool identifiers of the input pairs. -/
theorem filterMap_pairAddress_sublist (l : List RawPair) :
    List.Sublist ((l.filterMap normalizeCandidate).map (fun c => c.pairAddress))
      (l.map (fun p => p.pairAddress)) := by
  induction l with
  | nil => simp
  | cons p rest ih =>
    cases hn : normalizeCandidate p with
    | none =>
      rw [List.filterMap_cons_none hn, List.map_cons]
      exact ih.cons _
    | some c =>
      have hpa : c.pairAddress = p.pairAddress := (normalizeCandidate_some p c hn).2.2.2.2
      rw [List.filterMap_cons_some hn, List.map_cons, List.map_cons, hpa]
      exact ih.cons₂ _

/-- Lemma: `dedupBy` produces pairwise-distinct pool identifiers, none of which
was already seen. -/
theorem dedupBy_keys (l : List RawPair) :
    ∀ seen, ((dedupBy seen l).map (fun p => p.pairAddress)).Nodup ∧
      (∀ p ∈ dedupBy seen l, p.pairAddress ∉ seen) := by
  induction l with
  | nil => intro seen; exact ⟨List.nodup_nil, by simp [dedupBy]⟩
  | cons p rest ih =>
    intro seen
    unfold dedupBy
    split_ifs with hp
    · exact ih seen
    · obtain ⟨hnd, hnotin⟩ := ih (p.pairAddress :: seen)
      refine ⟨?_, ?_⟩
      · rw [List.map_cons, List.nodup_cons]
        refine ⟨?_, hnd⟩
        intro hmem
        obtain ⟨q, hq, hqk⟩ := List.mem_map.mp hmem
        have hns := hnotin q hq
        rw [hqk] at hns
        exact hns (List.mem_cons_self _ _)
      · intro q hq
        rcases List.mem_cons.mp hq with rfl | hq'
        · exact hp
        · intro hqs
          exact (hnotin q hq') (List.mem_cons_of_mem _ hqs)

/-- First occurrence wins: looking up any not-yet-seen pool identifier in
the deduplicated list finds exactly what a lookup in the raw list finds. -/
theorem dedupBy_find? (l : List RawPair) :
    ∀ (seen : List (Option String)) (k : Option String), k ∉ seen →
      (dedupBy seen l).find? (fun p => p.pairAddress == k) =
        l.find? (fun p => p.pairAddress == k) := by
  induction l with
  | nil => intro seen k _; rfl
  | cons p rest ih =>
    intro seen k hk
    unfold dedupBy
    split_ifs with hp
    · have hne : ¬((p.pairAddress == k) = true) := by
        rw [beq_iff_eq]
        intro heq
        exact hk (heq ▸ hp)
      rw [ih seen k hk,
        @List.find?_cons_of_neg _ (fun p => p.pairAddress == k) p rest hne]
    · by_cases hpk : (p.pairAddress == k) = true
      · rw [@List.find?_cons_of_pos _ (fun p => p.pairAddress == k) p
            (dedupBy (p.pairAddress :: seen) rest) hpk,
          @List.find?_cons_of_pos _ (fun p => p.pairAddress == k) p rest hpk]
      · have hk' : k ∉ p.pairAddress :: seen := by
          intro hmem
          rcases List.mem_cons.mp hmem with heq | hmem'
          · exact hpk (by rw [beq_iff_eq]; exact heq.symm)
          · exact hk hmem'
        rw [@List.find?_cons_of_neg _ (fun p => p.pairAddress == k) p
            (dedupBy (p.pairAddress :: seen) rest) hpk,
          @List.find?_cons_of_neg _ (fun p => p.pairAddress == k) p rest hpk,
          ih _ k hk']

/-- C9 counterexample. When the trending endpoint itself supplies
base-chain pairs, no deduplication runs: two feed records with the same
pool identifier yield two Candidates with that pool identifier. -/
theorem getTrendingTokens_dup_cex :
    (getTrendingTokens defaultConfig [dupPair, dupPair] []).map
      (fun c => c.pairAddress) = [some "0xPOOL", some "0xPOOL"] := by
  decide

/-- C9 amended. Every produced Candidate comes from a base-chain
pair and has positive price, positive volume and nonempty symbol and
address (records missing any of these are dropped silently); pool-level
deduplication — first occurrence wins — applies only on the fallback
path, i.e. when the trending result was empty or contained no base-chain
pair; on the pure trending path duplicate pool identifiers survive. -/
theorem getTrendingTokens_normalization (cfg : Config) (trending : List RawPair)
    (fallbackResponses : List (List RawPair)) :
    (∀ c ∈ getTrendingTokens cfg trending fallbackResponses,
        0 < c.price ∧ 0 < c.volume24h ∧ c.symbol ≠ "" ∧ c.address ≠ "") ∧
    ((trending.isEmpty || !(trending.any (fun p => p.chainId == "base"))) = true →
      ((getTrendingTokens cfg trending fallbackResponses).map
        (fun c => c.pairAddress)).Nodup) ∧
    (∀ (l : List RawPair) (k : Option String),
      (dedupBy [] l).find? (fun p => p.pairAddress == k) =
        l.find? (fun p => p.pairAddress == k)) := by
  refine ⟨?_, ?_, fun l k => dedupBy_find? l [] k (by simp)⟩
  · intro c hc
    simp only [getTrendingTokens] at hc
    obtain ⟨p, -, hp⟩ := List.mem_filterMap.mp hc
    obtain ⟨h1, h2, h3, h4, -⟩ := normalizeCandidate_some p c hp
    exact ⟨h1, h2, h3, h4⟩
  · intro hcond
    simp only [getTrendingTokens]
    rw [if_pos hcond]
    have h1 := (dedupBy_keys (trending ++
      (fallbackResponses.map (fun resp => resp.filter (fun p =>
        p.chainId == "base" && jsGtOpt p.volumeH24 cfg.minVolume24h))).flatten) []).1
    have h2 := (List.filter_sublist (p := fun p => p.chainId == "base")
      (dedupBy [] (trending ++ (fallbackResponses.map (fun resp =>
        resp.filter (fun p =>
          p.chainId == "base" && jsGtOpt p.volumeH24 cfg.minVolume24h))).flatten))).map
      (fun p => p.pairAddress)
    have h3 := filterMap_pairAddress_sublist
      ((dedupBy [] (trending ++ (fallbackResponses.map (fun resp =>
        resp.filter (fun p =>
          p.chainId == "base" && jsGtOpt p.volumeH24 cfg.minVolume24h))).flatten)).filter
        (fun p => p.chainId == "base"))
    exact List.Nodup.sublist (h3.trans h2) h1

/-- Witness for the amended C9 theorem: the empty trending result takes
the fallback path, and the duplicated fallback pair is deduplicated. -/
theorem getTrendingTokens_normalization_witness :
    (∀ c ∈ getTrendingTokens defaultConfig [] [[dupPair, dupPair]],
        0 < c.price ∧ 0 < c.volume24h ∧ c.symbol ≠ "" ∧ c.address ≠ "") ∧
    ((getTrendingTokens defaultConfig [] [[dupPair, dupPair]]).map
        (fun c => c.pairAddress)).Nodup := by
  have h := getTrendingTokens_normalization defaultConfig [] [[dupPair, dupPair]]
  exact ⟨h.1, h.2.1 (by decide)⟩

end Claw16z
